import Mathlib

/-!
Shallow embedding of `leakguard/leak_logic.hpp` (namespace `lg`): the
criterion types `TimeBasedFlowRateCriterion` and `ProbeLeakDetectionCriterion`,
the aggregation engine `LeakLogic`, and the textual serialization codec.

Conventions of the embedding:
* C++ `float` values (flow rates, thresholds) are modelled as `ℚ`; the
  `static_cast<int>` truncation toward zero becomes `truncQ`.
* `time_t` values are modelled as `ℤ`.
* `std::unique_ptr<LeakDetectionCriterion>` becomes `Option Criterion`,
  with `none` standing for a null pointer.  Operations of `LeakLogic`
  that dereference the stored pointers (`update`, `getAction`,
  `serialize`) return `Option`/`none` to model the null-pointer crash.
* `StaticString` / `StaticVector` come from headers that are not part of
  this source tree; the pieces of their behavior the logic depends on
  (decimal rendering, integer parsing, bounded append) are modelled from
  the design spec and marked `Modelled from the spec:` below.
-/

namespace lg

/-- Leak prevention action type (enum `ActionType`). -/
inductive ActionType
  | NO_ACTION
  | CLOSE_VALVE
deriving DecidableEq

/-- Leak prevention action reason (enum `ActionReason`). -/
inductive ActionReason
  | NONE
  | EXCEEDED_FLOW_RATE
  | LEAK_DETECTED_BY_PROBE
deriving DecidableEq

/-- `LeakPreventionAction`: action type, reason and probe id.  The C++
constructor defaults are `NO_ACTION`, `NONE` and `uint8_t(-1) = 255`. -/
structure LeakPreventionAction where
  actionType : ActionType := .NO_ACTION
  reason : ActionReason := .NONE
  probeId : Nat := 255
deriving DecidableEq

/-- `SensorState`: flow rate (liters per minute) and per-probe leak flags. -/
structure SensorState where
  flowRate : ℚ
  probeStates : List Bool

/-- Truncation toward zero of a rational, the behavior of C++
`static_cast<int>` on a floating value. -/
def truncQ (q : ℚ) : ℤ := q.num.tdiv (q.den : ℤ)

/-- Narrowing of a wider integer to a 32-bit `int`, as performed by the
`static_cast<int>` at `serialize`: two's-complement wrap into
`[-2^31, 2^31)`.  (For the floating operand an out-of-range
`static_cast<int>` is undefined behavior in C++; the wrap is this
model's choice there, and the in-range case — plain truncation — is
exact.) -/
def toInt32 (n : ℤ) : ℤ := (n + 2147483648) % 4294967296 - 2147483648

/-- Decimal digit to character. -/
def digitChar (d : Nat) : Char :=
  match d with
  | 0 => '0' | 1 => '1' | 2 => '2' | 3 => '3' | 4 => '4'
  | 5 => '5' | 6 => '6' | 7 => '7' | 8 => '8' | 9 => '9'
  | _ => '*'

/-- Little-endian decimal digits of `n`, with explicit fuel so that the
recursion is structural. -/
def natToCharsAux : Nat → Nat → List Char
  | 0, _ => []
  | fuel + 1, n =>
    if n = 0 then [] else digitChar (n % 10) :: natToCharsAux fuel (n / 10)

/-- Modelled from the spec: decimal rendering of a nonnegative integer,
as performed by `StaticString::Of` (`staticstring.hpp` is not in the
source tree); §6 fixes the fields as base-10 integers. -/
def natToChars (n : Nat) : List Char :=
  if n = 0 then ['0'] else (natToCharsAux n n).reverse

/-- Modelled from the spec: decimal rendering of an integer by
`StaticString::Of`, base-10 with a leading minus sign for negatives. -/
def intToChars (n : ℤ) : List Char :=
  if n < 0 then '-' :: natToChars n.natAbs else natToChars n.toNat

/-- Numeric value of a decimal character. -/
def digitVal (c : Char) : Nat := c.toNat - 48

/-- Accumulating decimal parse; stops at the first non-digit character. -/
def parseDigits : Nat → List Char → Nat
  | acc, [] => acc
  | acc, c :: cs => if c.isDigit then parseDigits (acc * 10 + digitVal c) cs else acc

/-- Modelled from the spec: `StaticString::ToInteger<int>`
(`staticstring.hpp` is not in the source tree): base-10 parse of an
optionally `-`-signed integer, stopping at the first non-digit. -/
def toIntegerM (cs : List Char) : ℤ :=
  match cs with
  | [] => 0
  | c :: rest =>
    if c = '-' then -(parseDigits 0 rest : ℤ) else (parseDigits 0 (c :: rest) : ℤ)

/-- `TimeBasedFlowRateCriterion`: configuration (`rateThreshold`,
`minDuration`) plus evaluation state (`accumulatedTime`, `active`);
the constructor initializes the state to `0` / `false`. -/
structure TimeBasedFlowRateCriterion where
  rateThreshold : ℚ
  minDuration : ℤ
  accumulatedTime : ℤ := 0
  active : Bool := false
deriving DecidableEq

namespace TimeBasedFlowRateCriterion

/-- `TimeBasedFlowRateCriterion::update`: accumulate elapsed time and set
`active` when `flowRate >= rateThreshold`, otherwise reset both. -/
def update (c : TimeBasedFlowRateCriterion) (sensorState : SensorState)
    (elapsedTime : ℤ) : TimeBasedFlowRateCriterion :=
  if c.rateThreshold ≤ sensorState.flowRate then
    { c with accumulatedTime := c.accumulatedTime + elapsedTime, active := true }
  else
    { c with accumulatedTime := 0, active := false }

/-- `TimeBasedFlowRateCriterion::getAction`: fire `CLOSE_VALVE` /
`EXCEEDED_FLOW_RATE` when `active && accumulatedTime >= minDuration`. -/
def getAction (c : TimeBasedFlowRateCriterion) : Option LeakPreventionAction :=
  if c.active = true ∧ c.minDuration ≤ c.accumulatedTime then
    some { actionType := .CLOSE_VALVE, reason := .EXCEEDED_FLOW_RATE }
  else
    none

/-- `TimeBasedFlowRateCriterion::serialize`:
`"T," + static_cast<int>(rateThreshold*100) + "," +
static_cast<int>(minDuration) + ","` — both fields pass through the
32-bit `int` narrowing. -/
def serialize (c : TimeBasedFlowRateCriterion) : List Char :=
  ['T', ','] ++ intToChars (toInt32 (truncQ (c.rateThreshold * 100))) ++ [','] ++
    intToChars (toInt32 c.minDuration) ++ [',']

/-- Parser buffer states of `TimeBasedFlowRateCriterion::deserialize`. -/
inductive FlowBufferState
  | TYPE
  | RATE_THRESH
  | MIN_DURATION
deriving DecidableEq

/-- State of the character loop in `TimeBasedFlowRateCriterion::deserialize`:
either still running (buffer state, field buffer, rate parsed so far) or
returned with a constructed criterion. -/
inductive FlowParse
  | run (st : FlowBufferState) (buffer : List Char) (rateThreshold : ℚ)
  | done (c : TimeBasedFlowRateCriterion)

/-- One character of the `deserialize` loop: append to the buffer; on a
comma, consume the buffered field according to the current state. -/
def flowStep (p : FlowParse) (c : Char) : FlowParse :=
  match p with
  | .done cr => .done cr
  | .run st buf r =>
    if c = ',' then
      match st with
      | .TYPE => .run .RATE_THRESH [] r
      | .RATE_THRESH => .run .MIN_DURATION [] ((toIntegerM buf : ℚ) / 100)
      | .MIN_DURATION => .done { rateThreshold := r, minDuration := toIntegerM buf }
    else .run st (buf ++ [c]) r

/-- `TimeBasedFlowRateCriterion::deserialize`: run the character loop;
`none` models the `nullptr` return when fewer than three fields end in a
comma. -/
def deserialize (s : List Char) : Option TimeBasedFlowRateCriterion :=
  match s.foldl flowStep (.run .TYPE [] 0) with
  | .done c => some c
  | .run _ _ _ => none

end TimeBasedFlowRateCriterion

/-- `ProbeLeakDetectionCriterion`: configured probe id plus the
`leakDetected` evaluation flag (initially `false`). -/
structure ProbeLeakDetectionCriterion where
  probeId : Nat
  leakDetected : Bool := false
deriving DecidableEq

namespace ProbeLeakDetectionCriterion

/-- `ProbeLeakDetectionCriterion::update`: clear `leakDetected`, then scan
every probe state and set it on any `true`. -/
def update (c : ProbeLeakDetectionCriterion) (sensorState : SensorState)
    (_elapsedTime : ℤ) : ProbeLeakDetectionCriterion :=
  { c with
    leakDetected :=
      sensorState.probeStates.foldl (fun acc st => if st then true else acc) false }

/-- `ProbeLeakDetectionCriterion::getAction`: fire `CLOSE_VALVE` /
`LEAK_DETECTED_BY_PROBE` carrying the configured id iff `leakDetected`. -/
def getAction (c : ProbeLeakDetectionCriterion) : Option LeakPreventionAction :=
  if c.leakDetected = true then
    some { actionType := .CLOSE_VALVE, reason := .LEAK_DETECTED_BY_PROBE,
           probeId := c.probeId }
  else
    none

/-- `ProbeLeakDetectionCriterion::serialize`: `"P," + probeId + ","`. -/
def serialize (c : ProbeLeakDetectionCriterion) : List Char :=
  ['P', ','] ++ natToChars c.probeId ++ [',']

/-- Parser buffer states of `ProbeLeakDetectionCriterion::deserialize`. -/
inductive ProbeBufferState
  | TYPE
  | PROBE_ID
deriving DecidableEq

/-- State of the character loop in `ProbeLeakDetectionCriterion::deserialize`. -/
inductive ProbeParse
  | run (st : ProbeBufferState) (buffer : List Char)
  | done (c : ProbeLeakDetectionCriterion)

/-- One character of the probe `deserialize` loop.  The parsed `int` is
narrowed to `uint8_t`, i.e. taken modulo 256. -/
def probeStep (p : ProbeParse) (c : Char) : ProbeParse :=
  match p with
  | .done cr => .done cr
  | .run st buf =>
    if c = ',' then
      match st with
      | .TYPE => .run .PROBE_ID []
      | .PROBE_ID => .done { probeId := ((toIntegerM buf) % 256).toNat }
    else .run st (buf ++ [c])

/-- `ProbeLeakDetectionCriterion::deserialize`; `none` models the
`nullptr` return when fewer than two fields end in a comma. -/
def deserialize (s : List Char) : Option ProbeLeakDetectionCriterion :=
  match s.foldl probeStep (.run .TYPE []) with
  | .done c => some c
  | .run _ _ => none

end ProbeLeakDetectionCriterion

/-- The closed set of concrete criterion variants (the two subclasses of
`LeakDetectionCriterion` that ship). -/
inductive Criterion
  | flow (c : TimeBasedFlowRateCriterion)
  | probe (c : ProbeLeakDetectionCriterion)
deriving DecidableEq

namespace Criterion

/-- Virtual dispatch of `update`. -/
def update (cr : Criterion) (sensorState : SensorState) (elapsedTime : ℤ) :
    Criterion :=
  match cr with
  | .flow c => .flow (c.update sensorState elapsedTime)
  | .probe c => .probe (c.update sensorState elapsedTime)

/-- Virtual dispatch of `getAction`. -/
def getAction (cr : Criterion) : Option LeakPreventionAction :=
  match cr with
  | .flow c => c.getAction
  | .probe c => c.getAction

/-- Virtual dispatch of `serialize`. -/
def serialize (cr : Criterion) : List Char :=
  match cr with
  | .flow c => c.serialize
  | .probe c => c.serialize

end Criterion

/-- `LEAK_LOGIC_MAX_CRITERIA`. -/
def LEAK_LOGIC_MAX_CRITERIA : Nat := 10

/-- `LeakLogic`: the bounded criteria collection.  Entries are
`Option Criterion`: `none` is a stored null `unique_ptr`. -/
structure LeakLogic where
  criteria : List (Option Criterion) := []
deriving DecidableEq

namespace LeakLogic

/-- Modelled from the spec: `LeakLogic::addCriterion` forwards to
`StaticVector::Append` (`staticvector.hpp` is not in the source tree);
§4.1: `Append` fails when size equals the capacity
(`LEAK_LOGIC_MAX_CRITERIA`), otherwise appends at the end and succeeds. -/
def addCriterion (L : LeakLogic) (c : Option Criterion) : Bool × LeakLogic :=
  if L.criteria.length = LEAK_LOGIC_MAX_CRITERIA then (false, L)
  else (true, ⟨L.criteria ++ [c]⟩)

/-- The loop body of `LeakLogic::update`; `none` models the null-pointer
dereference on a stored null criterion. -/
def updateList (sensorState : SensorState) (elapsedTime : ℤ) :
    List (Option Criterion) → Option (List (Option Criterion))
  | [] => some []
  | none :: _ => none
  | some cr :: rest =>
    (updateList sensorState elapsedTime rest).map
      (fun t => some (cr.update sensorState elapsedTime) :: t)

/-- `LeakLogic::update`: update every contained criterion in order. -/
def update (L : LeakLogic) (sensorState : SensorState) (elapsedTime : ℤ) :
    Option LeakLogic :=
  (updateList sensorState elapsedTime L.criteria).map LeakLogic.mk

/-- The loop body of `LeakLogic::getAction`: first non-empty criterion
action wins; the default-constructed `NO_ACTION` action when none fires.
`none` models the null-pointer dereference on a stored null criterion. -/
def getActionList : List (Option Criterion) → Option LeakPreventionAction
  | [] => some { actionType := .NO_ACTION }
  | none :: _ => none
  | some cr :: rest =>
    match cr.getAction with
    | some a => some a
    | none => getActionList rest

/-- `LeakLogic::getAction`. -/
def getAction (L : LeakLogic) : Option LeakPreventionAction :=
  getActionList L.criteria

/-- The loop body of `LeakLogic::serialize`: each criterion record
followed by `'|'`; `none` models the null-pointer dereference. -/
def serializeList : List (Option Criterion) → Option (List Char)
  | [] => some []
  | none :: _ => none
  | some cr :: rest => (serializeList rest).map (fun t => cr.serialize ++ '|' :: t)

/-- `LeakLogic::serialize`. -/
def serialize (L : LeakLogic) : Option (List Char) :=
  serializeList L.criteria

/-- Chunk dispatch of `LeakLogic::loadFromString`: switch on `buffer[0]`,
forwarding `'T'` / `'P'` chunks to the matching parser and appending the
parser's result (possibly a null pointer); other tags are skipped. -/
def dispatchChunk (buf : List Char) (L : LeakLogic) : LeakLogic :=
  match buf with
  | 'T' :: _ => (L.addCriterion ((TimeBasedFlowRateCriterion.deserialize buf).map .flow)).2
  | 'P' :: _ => (L.addCriterion ((ProbeLeakDetectionCriterion.deserialize buf).map .probe)).2
  | _ => L

/-- One character of the `loadFromString` loop: accumulate into the chunk
buffer; on `'|'`, dispatch the buffered chunk and clear the buffer. -/
def loadStep (st : List Char × LeakLogic) (c : Char) : List Char × LeakLogic :=
  if c = '|' then ([], dispatchChunk st.1 st.2) else (st.1 ++ [c], st.2)

/-- `LeakLogic::loadFromString`: fold the loop body over the input;
whatever remains in the buffer at the end is dropped. -/
def loadFromString (L : LeakLogic) (s : List Char) : LeakLogic :=
  (s.foldl loadStep ([], L)).2

end LeakLogic

/-- Well-formed configuration of a criterion: the domains the design spec
fixes for the constructors (`rateThreshold ≥ 0`, `minDurationSeconds ≥ 0`,
`probeId` a byte). -/
def CritWF : Criterion → Prop
  | .flow c => 0 ≤ c.rateThreshold ∧ 0 ≤ c.minDuration
  | .probe c => c.probeId < 256

/-- The criterion reconstructed by one serialize/deserialize round trip:
the flow configuration passes through the ×100 integer truncation and
the 32-bit narrowing, the evaluation state starts fresh. -/
def Criterion.reload : Criterion → Criterion
  | .flow c =>
    .flow { rateThreshold := (toInt32 (truncQ (c.rateThreshold * 100)) : ℚ) / 100,
            minDuration := toInt32 c.minDuration }
  | .probe c => .probe { probeId := c.probeId }

/-- The serialized document of a criterion list: each record followed by
`'|'`, in order. -/
def serializeAll : List Criterion → List Char
  | [] => []
  | c :: rest => c.serialize ++ '|' :: serializeAll rest

/-! ## Helper lemmas -/

/-- Sanity check of the embedding against the repository's test vector
`ShouldDeserializeTimeBasedFlowCriterion`. -/
theorem deserialize_test_vector_flow :
    (TimeBasedFlowRateCriterion.deserialize "T,167,1234,".data).map
      TimeBasedFlowRateCriterion.minDuration = some 1234 := by decide

/-- Sanity check of the embedding against the repository's test vector
`ShouldDeserializeProbeLeakDetectionCriterion`. -/
theorem deserialize_test_vector_probe :
    (ProbeLeakDetectionCriterion.deserialize "P,123,".data).map
      ProbeLeakDetectionCriterion.probeId = some 123 := by decide

/-- Sanity check of the embedding against the repository's test vector
`ShouldDeserializeMultipleCriteria`. -/
theorem deserialize_test_vector_multi :
    (LeakLogic.loadFromString ⟨[]⟩ "T,200,60,|P,42,|P,69,|".data).criteria.length
      = 3 := by decide

/-- The `leakDetected` scan loop is the any-of of the probe states. -/
theorem foldl_detect_eq_any (l : List Bool) (a : Bool) :
    l.foldl (fun acc st => if st then true else acc) a = (a || l.any (fun b => b)) := by
  induction l generalizing a with
  | nil => simp
  | cons b t ih =>
    rw [List.foldl_cons, ih]
    cases b <;> simp

/-- Characters that are not `'|'` only grow the chunk buffer of
`loadFromString`. -/
theorem foldl_loadStep_no_pipe (chunk : List Char) (h : '|' ∉ chunk) :
    ∀ (buf : List Char) (L : LeakLogic),
      chunk.foldl LeakLogic.loadStep (buf, L) = (buf ++ chunk, L) := by
  induction chunk with
  | nil => intro buf L; simp
  | cons c t ih =>
    intro buf L
    simp only [List.mem_cons, not_or] at h
    have hc : c ≠ '|' := fun he => h.1 he.symm
    simp only [List.foldl_cons, LeakLogic.loadStep, if_neg hc]
    rw [ih h.2]
    simp

/-- `addCriterion` at most appends at the end. -/
theorem addCriterion_extends (L : LeakLogic) (o : Option Criterion) :
    ∃ ext, ((L.addCriterion o).2).criteria = L.criteria ++ ext := by
  unfold LeakLogic.addCriterion
  split
  · exact ⟨[], by simp⟩
  · exact ⟨[o], rfl⟩

/-- `dispatchChunk` at most appends at the end. -/
theorem dispatchChunk_extends (buf : List Char) (L : LeakLogic) :
    ∃ ext, (LeakLogic.dispatchChunk buf L).criteria = L.criteria ++ ext := by
  unfold LeakLogic.dispatchChunk
  split
  · exact addCriterion_extends _ _
  · exact addCriterion_extends _ _
  · exact ⟨[], by simp⟩

/-- The `loadFromString` loop only ever appends to the criteria list. -/
theorem load_foldl_extends (s : List Char) :
    ∀ (buf : List Char) (L : LeakLogic),
      ∃ ext, ((s.foldl LeakLogic.loadStep (buf, L)).2).criteria = L.criteria ++ ext := by
  induction s with
  | nil => intro buf L; exact ⟨[], by simp⟩
  | cons c t ih =>
    intro buf L
    by_cases hc : c = '|'
    · subst hc
      have hstep : LeakLogic.loadStep (buf, L) '|' = ([], LeakLogic.dispatchChunk buf L) := by
        simp [LeakLogic.loadStep]
      rw [List.foldl_cons, hstep]
      obtain ⟨e₀, he₀⟩ := dispatchChunk_extends buf L
      obtain ⟨e₁, he₁⟩ := ih [] (LeakLogic.dispatchChunk buf L)
      exact ⟨e₀ ++ e₁, by rw [he₁, he₀, List.append_assoc]⟩
    · have hstep : LeakLogic.loadStep (buf, L) c = (buf ++ [c], L) := by
        simp [LeakLogic.loadStep, hc]
      rw [List.foldl_cons, hstep]
      exact ih (buf ++ [c]) L

/-- First-match scan over non-null criteria is `List.findSome?`. -/
theorem getActionList_map_some (cs : List Criterion) :
    LeakLogic.getActionList (cs.map some) =
      some (match cs.findSome? Criterion.getAction with
            | some a => a
            | none => { actionType := .NO_ACTION, reason := .NONE }) := by
  induction cs with
  | nil => rfl
  | cons c t ih =>
    simp only [List.map_cons, LeakLogic.getActionList, List.findSome?_cons]
    cases h : c.getAction with
    | some a => simp
    | none => simpa using ih

/-! ### Numeric rendering and parsing -/

/-- Truncation of an integer-valued rational is the integer. -/
theorem truncQ_intCast (n : ℤ) : truncQ (n : ℚ) = n := by
  unfold truncQ
  rw [Rat.num_intCast, Rat.den_intCast]
  simp [Int.tdiv_one]

/-- Truncation toward zero agrees with the floor on nonnegative values. -/
theorem truncQ_eq_floor (q : ℚ) (h : 0 ≤ q) : truncQ q = ⌊q⌋ := by
  rw [Rat.floor_def]
  exact Int.tdiv_eq_ediv (Rat.num_nonneg.mpr h) (Int.natCast_nonneg q.den)

/-- Truncation of a nonnegative rational is nonnegative. -/
theorem truncQ_nonneg (q : ℚ) (h : 0 ≤ q) : 0 ≤ truncQ q :=
  Int.tdiv_nonneg (Rat.num_nonneg.mpr h) (Int.natCast_nonneg q.den)

/-- Decimal digits below ten render to digit characters and back. -/
theorem digit_facts : ∀ d : Nat, d < 10 →
    (digitChar d).isDigit = true ∧ digitVal (digitChar d) = d := by decide

/-- With enough fuel, the rendering loop produces the little-endian
decimal digits. -/
theorem natToCharsAux_eq_digits :
    ∀ (fuel n : Nat), n ≤ fuel →
      natToCharsAux fuel n = (Nat.digits 10 n).map digitChar := by
  intro fuel
  induction fuel with
  | zero =>
    intro n h
    obtain rfl : n = 0 := Nat.le_zero.mp h
    simp [natToCharsAux]
  | succ f ih =>
    intro n h
    by_cases hn : n = 0
    · subst hn; simp [natToCharsAux]
    · rw [natToCharsAux, if_neg hn,
          Nat.digits_def' (by norm_num : (1:ℕ) < 10) (Nat.pos_of_ne_zero hn),
          List.map_cons]
      congr 1
      have hdiv : n / 10 < n := Nat.div_lt_self (Nat.pos_of_ne_zero hn) (by norm_num)
      exact ih (n / 10) (by omega)

/-- Every character of a rendered natural number is a decimal digit. -/
theorem natToChars_all_digits (n : Nat) : ∀ c ∈ natToChars n, c.isDigit = true := by
  unfold natToChars
  split
  · intro c hc
    rw [List.mem_singleton] at hc
    subst hc
    decide
  · intro c hc
    rw [natToCharsAux_eq_digits n n le_rfl, List.mem_reverse] at hc
    obtain ⟨d, hd, rfl⟩ := List.mem_map.mp hc
    exact (digit_facts d (Nat.digits_lt_base (by norm_num) hd)).1

/-- The accumulating parse of mapped digits is the base-10 left fold. -/
theorem parseDigits_map_digitChar (l : List Nat) (hl : ∀ d ∈ l, d < 10) :
    ∀ a, parseDigits a (l.map digitChar) = l.foldl (fun a d => a * 10 + d) a := by
  induction l with
  | nil => intro a; rfl
  | cons d t ih =>
    intro a
    have hd := digit_facts d (hl d (by simp))
    rw [List.map_cons]
    simp only [parseDigits, if_pos hd.1, hd.2]
    exact ih (fun x hx => hl x (List.mem_cons_of_mem _ hx)) (a * 10 + d)

/-- Left fold of the reversed digit list computes the represented value. -/
theorem foldl_digits_reverse (l : List Nat) :
    ∀ a : Nat, (l.reverse).foldl (fun a d => a * 10 + d) a
      = a * 10 ^ l.length + Nat.ofDigits 10 l := by
  induction l with
  | nil => intro a; simp
  | cons d t ih =>
    intro a
    rw [List.reverse_cons, List.foldl_append, ih]
    simp only [List.foldl_cons, List.foldl_nil, Nat.ofDigits_cons, List.length_cons,
               pow_succ]
    ring

/-- Parsing inverts rendering on natural numbers. -/
theorem parseDigits_natToChars (n : Nat) : parseDigits 0 (natToChars n) = n := by
  unfold natToChars
  split
  · rename_i hn
    subst hn
    decide
  · rw [natToCharsAux_eq_digits n n le_rfl, ← List.map_reverse,
        parseDigits_map_digitChar _
          (fun d hd => Nat.digits_lt_base (by norm_num) (List.mem_reverse.mp hd)),
        foldl_digits_reverse]
    simp [Nat.ofDigits_digits]

/-- A digit character is none of the delimiters. -/
theorem isDigit_ne_delims (c : Char) (h : c.isDigit = true) :
    c ≠ ',' ∧ c ≠ '|' ∧ c ≠ '-' := by
  refine ⟨?_, ?_, ?_⟩ <;> (rintro rfl; exact absurd h (by decide))

/-- On an all-digit string, `ToInteger` is the plain decimal parse. -/
theorem toIntegerM_of_digits (cs : List Char) (h : ∀ c ∈ cs, c.isDigit = true) :
    toIntegerM cs = (parseDigits 0 cs : ℤ) := by
  cases cs with
  | nil => simp [toIntegerM, parseDigits]
  | cons c t =>
    have hc : c ≠ '-' := (isDigit_ne_delims c (h c (by simp))).2.2
    simp [toIntegerM, if_neg hc]

/-- `ToInteger` inverts the decimal rendering of a natural number. -/
theorem toIntegerM_natToChars (n : Nat) : toIntegerM (natToChars n) = (n : ℤ) := by
  rw [toIntegerM_of_digits _ (natToChars_all_digits n), parseDigits_natToChars]

/-- Rendering a nonnegative integer renders its natural absolute value. -/
theorem intToChars_nonneg (n : ℤ) (h : 0 ≤ n) : intToChars n = natToChars n.toNat := by
  unfold intToChars
  rw [if_neg (not_lt.mpr h)]

/-- Every character of a rendered nonnegative integer is a digit. -/
theorem intToChars_all_digits (n : ℤ) (h : 0 ≤ n) :
    ∀ c ∈ intToChars n, c.isDigit = true := by
  rw [intToChars_nonneg n h]
  exact natToChars_all_digits n.toNat

/-- `ToInteger` inverts the decimal rendering of any integer: a negative
value renders as `'-'` followed by digits, which the sign-aware parse
undoes. -/
theorem toIntegerM_intToChars (n : ℤ) : toIntegerM (intToChars n) = n := by
  by_cases h : n < 0
  · unfold intToChars
    rw [if_pos h]
    have hneg : toIntegerM ('-' :: natToChars n.natAbs)
        = -(parseDigits 0 (natToChars n.natAbs) : ℤ) := by
      show (if ('-' : Char) = '-' then -(parseDigits 0 (natToChars n.natAbs) : ℤ)
            else (parseDigits 0 ('-' :: natToChars n.natAbs) : ℤ))
          = -(parseDigits 0 (natToChars n.natAbs) : ℤ)
      rw [if_pos rfl]
    rw [hneg, parseDigits_natToChars]
    omega
  · rw [intToChars_nonneg n (le_of_not_lt h), toIntegerM_natToChars,
        Int.toNat_of_nonneg (le_of_not_lt h)]

/-- No character of a rendered integer is a record or document delimiter. -/
theorem intToChars_no_delims (n : ℤ) : ∀ c ∈ intToChars n, c ≠ ',' ∧ c ≠ '|' := by
  unfold intToChars
  split
  · intro c hc
    rcases List.mem_cons.mp hc with rfl | hmem
    · exact ⟨by decide, by decide⟩
    · have hd := natToChars_all_digits _ _ hmem
      exact ⟨(isDigit_ne_delims _ hd).1, (isDigit_ne_delims _ hd).2.1⟩
  · intro c hc
    have hd := natToChars_all_digits _ _ hc
    exact ⟨(isDigit_ne_delims _ hd).1, (isDigit_ne_delims _ hd).2.1⟩

/-- The 32-bit narrowing lands in `[-2^31, 2^31)`. -/
theorem toInt32_bounds (n : ℤ) : -2147483648 ≤ toInt32 n ∧ toInt32 n < 2147483648 := by
  unfold toInt32
  omega

/-- The 32-bit narrowing is the identity on values already in range. -/
theorem toInt32_eq_self (n : ℤ) (h1 : -2147483648 ≤ n) (h2 : n < 2147483648) :
    toInt32 n = n := by
  unfold toInt32
  omega

/-- Narrowing twice is narrowing once. -/
theorem toInt32_idem (n : ℤ) : toInt32 (toInt32 n) = toInt32 n :=
  toInt32_eq_self _ (toInt32_bounds n).1 (toInt32_bounds n).2

/-! ### Record parsing -/

/-- Characters other than `','` only grow the field buffer of the flow
parser. -/
theorem foldl_flowStep_no_comma (field : List Char) (h : ∀ c ∈ field, c ≠ ',') :
    ∀ (st : TimeBasedFlowRateCriterion.FlowBufferState) (buf : List Char) (r : ℚ),
      field.foldl TimeBasedFlowRateCriterion.flowStep (.run st buf r)
        = .run st (buf ++ field) r := by
  induction field with
  | nil => intro st buf r; simp
  | cons c t ih =>
    intro st buf r
    have hc : c ≠ ',' := h c (by simp)
    have hstep : TimeBasedFlowRateCriterion.flowStep (.run st buf r) c
        = .run st (buf ++ [c]) r := by
      simp [TimeBasedFlowRateCriterion.flowStep, hc]
    rw [List.foldl_cons, hstep, ih (fun x hx => h x (List.mem_cons_of_mem _ hx))]
    simp

/-- The flow parser on a three-field record with digit fields returns the
criterion built from the parsed threshold (scaled by 1/100) and duration. -/
theorem flow_deserialize_record (F1 F2 : List Char)
    (h1c : ∀ c ∈ F1, c ≠ ',') (h2c : ∀ c ∈ F2, c ≠ ',') :
    TimeBasedFlowRateCriterion.deserialize
        (['T', ','] ++ F1 ++ [','] ++ F2 ++ [',']) =
      some { rateThreshold := (toIntegerM F1 : ℚ) / 100,
             minDuration := toIntegerM F2 } := by
  unfold TimeBasedFlowRateCriterion.deserialize
  rw [List.foldl_append, List.foldl_append, List.foldl_append, List.foldl_append]
  have e1 : List.foldl TimeBasedFlowRateCriterion.flowStep (.run .TYPE [] 0) ['T', ',']
      = .run .RATE_THRESH [] 0 := by
    simp [TimeBasedFlowRateCriterion.flowStep]
  rw [e1, foldl_flowStep_no_comma F1 h1c, List.nil_append]
  have e2 : List.foldl TimeBasedFlowRateCriterion.flowStep (.run .RATE_THRESH F1 0) [',']
      = .run .MIN_DURATION [] ((toIntegerM F1 : ℚ) / 100) := by
    simp [TimeBasedFlowRateCriterion.flowStep]
  rw [e2, foldl_flowStep_no_comma F2 h2c, List.nil_append]
  simp [TimeBasedFlowRateCriterion.flowStep]

/-- Serializing then deserializing a flow criterion yields the criterion
reconstructed through the ×100 truncation and the 32-bit narrowing. -/
theorem flow_serialize_deserialize (c : TimeBasedFlowRateCriterion) :
    TimeBasedFlowRateCriterion.deserialize c.serialize =
      some { rateThreshold := (toInt32 (truncQ (c.rateThreshold * 100)) : ℚ) / 100,
             minDuration := toInt32 c.minDuration } := by
  unfold TimeBasedFlowRateCriterion.serialize
  rw [flow_deserialize_record _ _
        (fun x hx => (intToChars_no_delims _ x hx).1)
        (fun x hx => (intToChars_no_delims _ x hx).1),
      toIntegerM_intToChars, toIntegerM_intToChars]

/-- Characters other than `','` only grow the field buffer of the probe
parser. -/
theorem foldl_probeStep_no_comma (field : List Char) (h : ∀ c ∈ field, c ≠ ',') :
    ∀ (st : ProbeLeakDetectionCriterion.ProbeBufferState) (buf : List Char),
      field.foldl ProbeLeakDetectionCriterion.probeStep (.run st buf)
        = .run st (buf ++ field) := by
  induction field with
  | nil => intro st buf; simp
  | cons c t ih =>
    intro st buf
    have hc : c ≠ ',' := h c (by simp)
    have hstep : ProbeLeakDetectionCriterion.probeStep (.run st buf) c
        = .run st (buf ++ [c]) := by
      simp [ProbeLeakDetectionCriterion.probeStep, hc]
    rw [List.foldl_cons, hstep, ih (fun x hx => h x (List.mem_cons_of_mem _ hx))]
    simp

/-- The probe parser on a two-field record with a digit id field returns
the criterion with the parsed id narrowed to a byte. -/
theorem probe_deserialize_record (F : List Char) (hc : ∀ c ∈ F, c ≠ ',') :
    ProbeLeakDetectionCriterion.deserialize (['P', ','] ++ F ++ [',']) =
      some { probeId := ((toIntegerM F) % 256).toNat } := by
  unfold ProbeLeakDetectionCriterion.deserialize
  rw [List.foldl_append, List.foldl_append]
  have e1 : List.foldl ProbeLeakDetectionCriterion.probeStep (.run .TYPE []) ['P', ',']
      = .run .PROBE_ID [] := by
    simp [ProbeLeakDetectionCriterion.probeStep]
  rw [e1, foldl_probeStep_no_comma F hc, List.nil_append]
  simp [ProbeLeakDetectionCriterion.probeStep]

/-- Serializing then deserializing a probe criterion with a byte id
reconstructs it exactly (with fresh evaluation state). -/
theorem probe_serialize_deserialize (c : ProbeLeakDetectionCriterion)
    (h : c.probeId < 256) :
    ProbeLeakDetectionCriterion.deserialize c.serialize =
      some { probeId := c.probeId } := by
  unfold ProbeLeakDetectionCriterion.serialize
  rw [probe_deserialize_record _
        (fun x hx => (isDigit_ne_delims x (natToChars_all_digits _ x hx)).1),
      toIntegerM_natToChars]
  have hm : ((c.probeId : ℤ)) % 256 = (c.probeId : ℤ) :=
    Int.emod_eq_of_lt (Int.natCast_nonneg _) (by exact_mod_cast h)
  rw [hm, Int.toNat_natCast]

/-! ### Document round trip -/

/-- The serialized record of a criterion contains no `'|'`. -/
theorem serialize_no_pipe (c : Criterion) : '|' ∉ c.serialize := by
  intro hmem
  cases c with
  | flow f =>
    simp only [Criterion.serialize, TimeBasedFlowRateCriterion.serialize,
               List.mem_append, List.mem_cons, List.mem_singleton,
               List.not_mem_nil] at hmem
    rcases hmem with ((((h | h) | h) | h) | h) | h
    · exact absurd h (by decide)
    · exact absurd h (by decide)
    · exact absurd rfl ((intToChars_no_delims _ '|' h).2)
    · exact absurd h (by decide)
    · exact absurd rfl ((intToChars_no_delims _ '|' h).2)
    · exact absurd h (by decide)
  | probe p =>
    simp only [Criterion.serialize, ProbeLeakDetectionCriterion.serialize,
               List.mem_append, List.mem_cons, List.mem_singleton,
               List.not_mem_nil] at hmem
    rcases hmem with ((h | h) | h) | h
    · exact absurd h (by decide)
    · exact absurd h (by decide)
    · exact absurd ((natToChars_all_digits _) '|' h) (by decide)
    · exact absurd h (by decide)

/-- Consuming one `'|'`-terminated chunk of the load loop. -/
theorem load_chunk (chunk rest : List Char) (h : '|' ∉ chunk)
    (buf : List Char) (L : LeakLogic) :
    (chunk ++ '|' :: rest).foldl LeakLogic.loadStep (buf, L)
      = rest.foldl LeakLogic.loadStep ([], LeakLogic.dispatchChunk (buf ++ chunk) L) := by
  rw [List.foldl_append, foldl_loadStep_no_pipe chunk h buf L, List.foldl_cons]
  have hstep : LeakLogic.loadStep (buf ++ chunk, L) '|'
      = ([], LeakLogic.dispatchChunk (buf ++ chunk) L) := by
    simp [LeakLogic.loadStep]
  rw [hstep]

/-- Chunk dispatch on a buffer headed by `'T'`. -/
theorem dispatchChunk_T (tail : List Char) (L : LeakLogic) :
    LeakLogic.dispatchChunk ('T' :: tail) L
      = (L.addCriterion ((TimeBasedFlowRateCriterion.deserialize ('T' :: tail)).map .flow)).2 :=
  rfl

/-- Chunk dispatch on a buffer headed by `'P'`. -/
theorem dispatchChunk_P (tail : List Char) (L : LeakLogic) :
    LeakLogic.dispatchChunk ('P' :: tail) L
      = (L.addCriterion ((ProbeLeakDetectionCriterion.deserialize ('P' :: tail)).map .probe)).2 :=
  rfl

/-- Dispatching the serialized record of a well-formed criterion into a
non-full collection appends the round-trip image of the criterion. -/
theorem dispatchChunk_serialize (c : Criterion) (L : LeakLogic)
    (hwf : CritWF c) (hroom : L.criteria.length < 10) :
    LeakLogic.dispatchChunk c.serialize L = ⟨L.criteria ++ [some c.reload]⟩ := by
  have hne : L.criteria.length ≠ LEAK_LOGIC_MAX_CRITERIA := by
    simp only [LEAK_LOGIC_MAX_CRITERIA]; omega
  cases c with
  | flow f =>
    have hshape : (Criterion.flow f).serialize
        = 'T' :: (',' :: (intToChars (toInt32 (truncQ (f.rateThreshold * 100))) ++ [','] ++
            intToChars (toInt32 f.minDuration) ++ [','])) := by
      simp [Criterion.serialize, TimeBasedFlowRateCriterion.serialize]
    rw [hshape, dispatchChunk_T, ← hshape]
    show (L.addCriterion ((TimeBasedFlowRateCriterion.deserialize f.serialize).map .flow)).2 = _
    rw [flow_serialize_deserialize f]
    simp [LeakLogic.addCriterion, if_neg hne, Criterion.reload]
  | probe p =>
    have hshape : (Criterion.probe p).serialize
        = 'P' :: (',' :: (natToChars p.probeId ++ [','])) := by
      simp [Criterion.serialize, ProbeLeakDetectionCriterion.serialize]
    rw [hshape, dispatchChunk_P, ← hshape]
    show (L.addCriterion ((ProbeLeakDetectionCriterion.deserialize p.serialize).map .probe)).2 = _
    rw [probe_serialize_deserialize p hwf]
    simp [LeakLogic.addCriterion, if_neg hne, Criterion.reload]

/-- Loading a serialized document of well-formed criteria into a
collection with enough room appends their round-trip images, in order. -/
theorem load_serializeAll (cs : List Criterion) :
    ∀ (L : LeakLogic), (∀ c ∈ cs, CritWF c) →
      L.criteria.length + cs.length ≤ 10 →
      (serializeAll cs).foldl LeakLogic.loadStep ([], L) =
        ([], ⟨L.criteria ++ cs.map (fun c => some c.reload)⟩) := by
  induction cs with
  | nil => intro L h hlen; simp [serializeAll]
  | cons c rest ih =>
    intro L hwf hlen
    have hwfc : CritWF c := hwf c (by simp)
    rw [serializeAll, load_chunk _ _ (serialize_no_pipe c) [] L, List.nil_append,
        dispatchChunk_serialize c L hwfc (by simp at hlen; omega)]
    rw [ih ⟨L.criteria ++ [some c.reload]⟩
          (fun x hx => hwf x (List.mem_cons_of_mem _ hx))
          (by simp at hlen ⊢; omega)]
    simp

/-- Serializing a collection of non-null criteria yields the concatenated
document. -/
theorem serializeList_map_some (cs : List Criterion) :
    LeakLogic.serializeList (cs.map some) = some (serializeAll cs) := by
  induction cs with
  | nil => rfl
  | cons c t ih => simp [LeakLogic.serializeList, serializeAll, ih]

/-- The round-trip image of a criterion serializes to the same record:
the reconstructed threshold `toInt32(truncQ(r*100))/100` truncates and
narrows back to the same integer, and the reloaded duration is already
in 32-bit range. -/
theorem serialize_reload (c : Criterion) : c.reload.serialize = c.serialize := by
  cases c with
  | probe p => rfl
  | flow f =>
    simp only [Criterion.reload, Criterion.serialize, TimeBasedFlowRateCriterion.serialize]
    have hq : ((toInt32 (truncQ (f.rateThreshold * 100)) : ℚ) / 100) * 100
        = (toInt32 (truncQ (f.rateThreshold * 100)) : ℚ) :=
      div_mul_cancel₀ _ (by norm_num)
    rw [hq, truncQ_intCast, toInt32_idem, toInt32_idem]

/-- Reloading every criterion of a document leaves the document unchanged. -/
theorem serializeAll_reload (cs : List Criterion) :
    serializeAll (cs.map Criterion.reload) = serializeAll cs := by
  induction cs with
  | nil => rfl
  | cons c t ih => simp [serializeAll, serialize_reload, ih]

/-- A sustained run of updates at or above the threshold accumulates the
elapsed times and leaves the criterion active (once at least one tick ran). -/
theorem flow_foldl_sustained (ticks : List (SensorState × ℤ)) :
    ∀ (c : TimeBasedFlowRateCriterion),
      (∀ t ∈ ticks, c.rateThreshold ≤ t.1.flowRate) →
      ticks.foldl (fun a t => a.update t.1 t.2) c =
        { rateThreshold := c.rateThreshold, minDuration := c.minDuration,
          accumulatedTime := c.accumulatedTime + (ticks.map Prod.snd).sum,
          active := if ticks.isEmpty then c.active else true } := by
  induction ticks with
  | nil => intro c h; simp
  | cons t rest ih =>
    intro c h
    have h1 : c.rateThreshold ≤ t.1.flowRate := h t (by simp)
    have hu : c.update t.1 t.2 =
        { c with accumulatedTime := c.accumulatedTime + t.2, active := true } := by
      unfold TimeBasedFlowRateCriterion.update
      rw [if_pos h1]
    rw [List.foldl_cons, hu,
        ih _ (by intro x hx; exact h x (List.mem_cons_of_mem _ hx))]
    cases rest <;> simp [add_assoc]

/-! ## Claims -/

/-- C1: `TimeBasedFlowRateCriterion`: an update at flow rate `≥ r`
(non-strict) adds the elapsed seconds to the accumulator and sets the
active flag; an update at flow rate `< r` resets the accumulator to `0`
and clears the flag; `getAction` fires `CloseValve`/`ExceededFlowRate`
exactly when the flag is set and the accumulator is `≥ d` (non-strict);
hence a fresh criterion fed a sustained run of flow `≥ r` yields no
action while the cumulative elapsed time is `< d` and `CloseValve` as
soon as it reaches `d`. -/
theorem claim_c1_flow_criterion :
    (∀ (c : TimeBasedFlowRateCriterion) (s : SensorState) (e : ℤ),
      (c.rateThreshold ≤ s.flowRate →
        c.update s e = { c with accumulatedTime := c.accumulatedTime + e, active := true }) ∧
      (s.flowRate < c.rateThreshold →
        c.update s e = { c with accumulatedTime := 0, active := false })) ∧
    (∀ c : TimeBasedFlowRateCriterion,
      c.getAction = some { actionType := .CLOSE_VALVE, reason := .EXCEEDED_FLOW_RATE } ↔
        (c.active = true ∧ c.minDuration ≤ c.accumulatedTime)) ∧
    (∀ (r : ℚ) (d : ℤ) (ticks : List (SensorState × ℤ)),
      ticks ≠ [] →
      (∀ t ∈ ticks, r ≤ t.1.flowRate) →
      (((ticks.map Prod.snd).sum < d →
        (ticks.foldl (fun a t => TimeBasedFlowRateCriterion.update a t.1 t.2)
          { rateThreshold := r, minDuration := d }).getAction = none) ∧
      (d ≤ (ticks.map Prod.snd).sum →
        (ticks.foldl (fun a t => TimeBasedFlowRateCriterion.update a t.1 t.2)
          { rateThreshold := r, minDuration := d }).getAction =
          some { actionType := .CLOSE_VALVE, reason := .EXCEEDED_FLOW_RATE }))) := by
  refine ⟨?_, ?_, ?_⟩
  · intro c s e
    constructor
    · intro h
      unfold TimeBasedFlowRateCriterion.update
      rw [if_pos h]
    · intro h
      unfold TimeBasedFlowRateCriterion.update
      rw [if_neg (not_le.mpr h)]
  · intro c
    unfold TimeBasedFlowRateCriterion.getAction
    by_cases hc : c.active = true ∧ c.minDuration ≤ c.accumulatedTime
    · simp [hc]
    · simp [hc]
  · intro r d ticks hne hsus
    have hfold := flow_foldl_sustained ticks { rateThreshold := r, minDuration := d } hsus
    have hempty : ticks.isEmpty = false := by
      cases ticks with
      | nil => exact absurd rfl hne
      | cons a b => rfl
    simp only [hempty, Bool.false_eq_true, if_false, zero_add] at hfold
    constructor
    · intro hlt
      rw [hfold]
      unfold TimeBasedFlowRateCriterion.getAction
      rw [if_neg]
      rintro ⟨-, hd⟩
      exact absurd hd (not_le.mpr hlt)
    · intro hge
      rw [hfold]
      unfold TimeBasedFlowRateCriterion.getAction
      rw [if_pos ⟨rfl, hge⟩]

/-- Witness for C1: flow 3 against threshold 2 with minimum duration 60,
over two 30-second ticks — the valve closes exactly when the cumulative
time reaches 60. -/
theorem claim_c1_flow_criterion_witness :
    (List.foldl (fun a t => TimeBasedFlowRateCriterion.update a t.1 t.2)
        { rateThreshold := 2, minDuration := 60 }
        [((⟨3, []⟩ : SensorState), (30 : ℤ)), (⟨3, []⟩, 30)]).getAction =
      some { actionType := .CLOSE_VALVE, reason := .EXCEEDED_FLOW_RATE } :=
  (claim_c1_flow_criterion.2.2 2 60 [(⟨3, []⟩, 30), (⟨3, []⟩, 30)]
    (List.cons_ne_nil _ _) (by decide)).2 (by decide)

/-- C2: `ProbeLeakDetectionCriterion.update` sets `leakDetected` exactly
when some probe anywhere in the sequence reports true (not necessarily
the configured one); `getAction` fires `CloseValve`/`LeakDetectedByProbe`
carrying the configured id iff `leakDetected`; concretely, a lone
criterion configured for id 42 with `probeStates[42] = true` yields
`CloseValve`/`LeakDetectedByProbe`/probe 42 after `update` + `getAction`. -/
theorem claim_c2_probe_criterion :
    (∀ (c : ProbeLeakDetectionCriterion) (s : SensorState) (e : ℤ),
      ((c.update s e).leakDetected = true ↔ ∃ b ∈ s.probeStates, b = true) ∧
      (c.update s e).probeId = c.probeId) ∧
    (∀ c : ProbeLeakDetectionCriterion,
      c.getAction = some { actionType := .CLOSE_VALVE, reason := .LEAK_DETECTED_BY_PROBE,
                           probeId := c.probeId } ↔ c.leakDetected = true) ∧
    ((LeakLogic.update ⟨[some (.probe ⟨42, false⟩)]⟩
        ⟨3, List.replicate 42 false ++ [true]⟩ 30).bind LeakLogic.getAction =
      some { actionType := .CLOSE_VALVE, reason := .LEAK_DETECTED_BY_PROBE,
             probeId := 42 }) := by
  refine ⟨?_, ?_, by decide⟩
  · intro c s e
    constructor
    · unfold ProbeLeakDetectionCriterion.update
      rw [foldl_detect_eq_any]
      simp [List.any_eq_true]
    · rfl
  · intro c
    unfold ProbeLeakDetectionCriterion.getAction
    cases hld : c.leakDetected <;> simp [hld]

/-- C3: `LeakLogic::getAction` iterates the criteria in insertion order and
returns the action of the first criterion whose `getAction` is non-empty;
if none fires it returns the `NO_ACTION`/`NONE` default.  First-match
priority follows: with two simultaneously firing criteria, the one
registered first determines the result. -/
theorem claim_c3_first_match (cs : List Criterion) (L : LeakLogic)
    (h : L.criteria = cs.map some) :
    L.getAction =
      some (match cs.findSome? Criterion.getAction with
            | some a => a
            | none => { actionType := .NO_ACTION, reason := .NONE }) := by
  unfold LeakLogic.getAction
  rw [h, getActionList_map_some]

/-- Witness for C3: a flow criterion and a probe criterion that would both
fire on the same tick; the flow criterion, registered first, wins. -/
theorem claim_c3_first_match_witness :
    (List.findSome? Criterion.getAction
        [Criterion.flow ⟨2, 60, 70, true⟩, Criterion.probe ⟨9, true⟩]
      = some { actionType := .CLOSE_VALVE, reason := .EXCEEDED_FLOW_RATE }) ∧
    LeakLogic.getAction ⟨[some (.flow ⟨2, 60, 70, true⟩), some (.probe ⟨9, true⟩)]⟩ =
      some (match List.findSome? Criterion.getAction
                [Criterion.flow ⟨2, 60, 70, true⟩, Criterion.probe ⟨9, true⟩] with
            | some a => a
            | none => { actionType := .NO_ACTION, reason := .NONE }) :=
  ⟨by decide,
   claim_c3_first_match [Criterion.flow ⟨2, 60, 70, true⟩, Criterion.probe ⟨9, true⟩]
     ⟨[some (.flow ⟨2, 60, 70, true⟩), some (.probe ⟨9, true⟩)]⟩ (by rfl)⟩

/-- C5 (code bug): loading the malformed document `"T,200,|"` — a `'T'`
chunk with a missing field — does not skip the chunk: `deserialize`
returns a null pointer and `loadFromString` appends it to the criteria
collection, so the collection does not hold exactly the successfully
parsed criteria, and the next `update` dereferences the null pointer. -/
theorem claim_c5_null_appended :
    (LeakLogic.loadFromString ⟨[]⟩ "T,200,|".data).criteria = [none] ∧
    LeakLogic.update (LeakLogic.loadFromString ⟨[]⟩ "T,200,|".data) ⟨0, []⟩ 0
      = none := by decide

/-- C6: adding an 11th criterion to a full `LeakLogic` fails and leaves the
ten stored criteria unchanged in content and order; below capacity,
`addCriterion` appends after all existing criteria and succeeds. -/
theorem claim_c6_capacity (L : LeakLogic) (c : Option Criterion) :
    (L.criteria.length = 10 → L.addCriterion c = (false, L)) ∧
    (L.criteria.length < 10 → L.addCriterion c = (true, ⟨L.criteria ++ [c]⟩)) := by
  constructor
  · intro h
    simp [LeakLogic.addCriterion, LEAK_LOGIC_MAX_CRITERIA, h]
  · intro h
    have hne : L.criteria.length ≠ LEAK_LOGIC_MAX_CRITERIA := by
      simp only [LEAK_LOGIC_MAX_CRITERIA]; omega
    simp [LeakLogic.addCriterion, if_neg hne]

/-- Witness for C6: a concrete full collection rejects an 11th criterion
unchanged, and an empty collection appends. -/
theorem claim_c6_capacity_witness :
    ((⟨List.replicate 10 (some (.probe ⟨1, false⟩))⟩ : LeakLogic).addCriterion
        (some (.probe ⟨2, false⟩))
      = (false, ⟨List.replicate 10 (some (.probe ⟨1, false⟩))⟩)) ∧
    ((⟨[]⟩ : LeakLogic).addCriterion (some (.probe ⟨2, false⟩))
      = (true, ⟨[some (.probe ⟨2, false⟩)]⟩)) :=
  ⟨(claim_c6_capacity _ _).1 (by decide),
   (claim_c6_capacity ⟨[]⟩ _).2 (by decide)⟩

/-- C8 (counterexample): the spec grammar makes the final `'|'` optional,
but the code drops a final record that is not followed by `'|'`: loading
`"T,200,60,"` adds no criterion, while the `'|'`-terminated form adds one. -/
theorem claim_c8_counterexample :
    (LeakLogic.loadFromString ⟨[]⟩ "T,200,60,".data).criteria = [] ∧
    (LeakLogic.loadFromString ⟨[]⟩ "T,200,60,|".data).criteria.length = 1 := by
  decide

/-- C8 (amended): `loadFromString` parses only `'|'`-terminated records; a
trailing piece of the input containing no `'|'` — in particular a final
record not followed by `'|'` — is dropped without effect. -/
theorem claim_c8_trailing_record_dropped (L : LeakLogic) (doc extra : List Char)
    (h : '|' ∉ extra) :
    L.loadFromString (doc ++ extra) = L.loadFromString doc := by
  unfold LeakLogic.loadFromString
  rw [List.foldl_append]
  rcases hp : doc.foldl LeakLogic.loadStep ([], L) with ⟨buf₁, L₁⟩
  rw [foldl_loadStep_no_pipe extra h buf₁ L₁]

/-- Witness for C8 (amended): a well-formed record after the last `'|'` is
dropped. -/
theorem claim_c8_trailing_record_dropped_witness :
    LeakLogic.loadFromString ⟨[]⟩ ("P,7,|".data ++ "P,9,".data) =
      LeakLogic.loadFromString ⟨[]⟩ "P,7,|".data :=
  claim_c8_trailing_record_dropped ⟨[]⟩ "P,7,|".data "P,9,".data (by decide)

/-- C9: `loadFromString` only appends — the criteria already held stay in
place and in order, and every criterion reconstructed from the string is
added after them, keeping strictly higher first-match priority for the
pre-existing criteria. -/
theorem claim_c9_load_appends (L : LeakLogic) (s : List Char) :
    ∃ loaded, (L.loadFromString s).criteria = L.criteria ++ loaded := by
  unfold LeakLogic.loadFromString
  exact load_foldl_extends s [] L

/-- C10: `ProbeLeakDetectionCriterion` is non-latching — whatever the
previous value of `leakDetected`, an update in which every probe reports
`false` makes `getAction` empty. -/
theorem claim_c10_non_latching (p : ℕ) (ld : Bool) (s : SensorState) (e : ℤ)
    (h : ∀ b ∈ s.probeStates, b = false) :
    (ProbeLeakDetectionCriterion.update ⟨p, ld⟩ s e).getAction = none := by
  have hany : s.probeStates.any (fun b => b) = false := by
    rw [List.any_eq_false]
    intro x hx
    simp [h x hx]
  unfold ProbeLeakDetectionCriterion.update
  rw [foldl_detect_eq_any]
  simp [ProbeLeakDetectionCriterion.getAction, hany]

/-- Witness for C10: a leak latched on an earlier tick is cleared by an
all-clear update. -/
theorem claim_c10_non_latching_witness :
    (ProbeLeakDetectionCriterion.update ⟨7, true⟩ ⟨0, [false, false, false]⟩ 5).getAction
      = none :=
  claim_c10_non_latching 7 true ⟨0, [false, false, false]⟩ 5 (by decide)

/-- C4 (counterexample): the claimed exact duration recovery fails beyond
the 32-bit range — `serialize` narrows the 64-bit `minDuration` with
`static_cast<int>`, so a criterion configured with duration `2^31`
deserializes to duration `-2^31`, not `2^31`. -/
theorem claim_c4_counterexample :
    (TimeBasedFlowRateCriterion.deserialize
        (TimeBasedFlowRateCriterion.serialize ⟨0, 2147483648, 0, false⟩)).map
      TimeBasedFlowRateCriterion.minDuration = some (-2147483648) ∧
    ((-2147483648 : ℤ) ≠ 2147483648) := by
  constructor
  · rw [flow_serialize_deserialize]
    show some (toInt32 (2147483648 : ℤ)) = some (-2147483648)
    decide
  · decide

/-- C4 (amended): deserializing `serialize(x)` reconstructs the
configuration up to the ×100 integer truncation and the `static_cast<int>`
32-bit narrowing — for configurations whose scaled threshold and duration
fit in a 32-bit `int`, the threshold is recovered within 1/100 and the
duration and probe id exactly; and serializing a `LeakLogic`, loading the
string into a fresh one and serializing again reproduces the identical
string. -/
theorem claim_c4_roundtrip :
    (∀ c : TimeBasedFlowRateCriterion,
      0 ≤ c.rateThreshold → c.rateThreshold * 100 < 2147483648 →
      0 ≤ c.minDuration → c.minDuration < 2147483648 →
      ∃ c2, TimeBasedFlowRateCriterion.deserialize c.serialize = some c2 ∧
        |c2.rateThreshold - c.rateThreshold| ≤ 1 / 100 ∧
        c2.minDuration = c.minDuration) ∧
    (∀ c : ProbeLeakDetectionCriterion, c.probeId < 256 →
      ProbeLeakDetectionCriterion.deserialize c.serialize = some ⟨c.probeId, false⟩) ∧
    (∀ (cs : List Criterion) (L : LeakLogic),
      (∀ c ∈ cs, CritWF c) → cs.length ≤ 10 → L.criteria = cs.map some →
      ∃ out, L.serialize = some out ∧
        (LeakLogic.loadFromString ⟨[]⟩ out).serialize = some out) := by
  refine ⟨?_, ?_, ?_⟩
  · intro c hr hrb hd hdb
    refine ⟨_, flow_serialize_deserialize c, ?_, ?_⟩
    · show |(toInt32 (truncQ (c.rateThreshold * 100)) : ℚ) / 100 - c.rateThreshold|
          ≤ 1 / 100
      have h0 : (0:ℚ) ≤ c.rateThreshold * 100 := by positivity
      have hfl : truncQ (c.rateThreshold * 100) = ⌊c.rateThreshold * 100⌋ :=
        truncQ_eq_floor _ h0
      have hn0 : 0 ≤ truncQ (c.rateThreshold * 100) := truncQ_nonneg _ h0
      have hnlt : truncQ (c.rateThreshold * 100) < 2147483648 := by
        rw [hfl]
        have hfloor : ((⌊c.rateThreshold * 100⌋ : ℚ)) ≤ c.rateThreshold * 100 :=
          Int.floor_le _
        exact_mod_cast lt_of_le_of_lt hfloor hrb
      rw [toInt32_eq_self _ (by omega) hnlt, hfl]
      have hle : ((⌊c.rateThreshold * 100⌋ : ℚ)) ≤ c.rateThreshold * 100 := Int.floor_le _
      have hlt : c.rateThreshold * 100 < ⌊c.rateThreshold * 100⌋ + 1 :=
        Int.lt_floor_add_one _
      rw [abs_le]
      constructor <;> [linarith; linarith]
    · show toInt32 c.minDuration = c.minDuration
      exact toInt32_eq_self _ (by omega) hdb
  · intro c h
    exact probe_serialize_deserialize c h
  · intro cs L hwf hlen hcrit
    have hser : L.serialize = some (serializeAll cs) := by
      unfold LeakLogic.serialize
      rw [hcrit, serializeList_map_some]
    refine ⟨serializeAll cs, hser, ?_⟩
    unfold LeakLogic.loadFromString
    rw [load_serializeAll cs ⟨[]⟩ hwf (by simpa)]
    unfold LeakLogic.serialize
    show LeakLogic.serializeList ([] ++ cs.map fun c => some c.reload) = _
    rw [List.nil_append,
        show (cs.map fun c => some c.reload) = (cs.map Criterion.reload).map some from by
          rw [List.map_map]; rfl,
        serializeList_map_some, serializeAll_reload]

/-- Witness for C4 (amended): the flow criterion (2, 60), the probe
criterion 42, and a one-criterion `LeakLogic` round trip. -/
theorem claim_c4_roundtrip_witness :
    (∃ c2, TimeBasedFlowRateCriterion.deserialize
        (TimeBasedFlowRateCriterion.serialize ⟨2, 60, 0, false⟩) = some c2 ∧
        |c2.rateThreshold - 2| ≤ 1 / 100 ∧ c2.minDuration = 60) ∧
    (ProbeLeakDetectionCriterion.deserialize
        (ProbeLeakDetectionCriterion.serialize ⟨42, false⟩) = some ⟨42, false⟩) ∧
    (∃ out, (⟨[some (.probe ⟨42, false⟩)]⟩ : LeakLogic).serialize = some out ∧
      (LeakLogic.loadFromString ⟨[]⟩ out).serialize = some out) :=
  ⟨claim_c4_roundtrip.1 ⟨2, 60, 0, false⟩ (by decide) (by norm_num) (by decide) (by decide),
   claim_c4_roundtrip.2.1 ⟨42, false⟩ (by decide),
   claim_c4_roundtrip.2.2 [.probe ⟨42, false⟩] ⟨[some (.probe ⟨42, false⟩)]⟩
     (by intro c hc; rw [List.mem_singleton] at hc; subst hc; show (42:ℕ) < 256; decide)
     (by decide) rfl⟩

/-- C7 (counterexample): the claimed `"T,<int(r*100)>,<d>,"` format with
`d` rendered as the configured integer fails beyond the 32-bit range:
`serialize` applies `static_cast<int>` to the 64-bit `minDuration`, so
duration `2^31` is rendered as `-2147483648`, not `2147483648`. -/
theorem claim_c7_counterexample :
    TimeBasedFlowRateCriterion.serialize ⟨0, 2147483648, 0, false⟩
      = "T,0,-2147483648,".data ∧
    TimeBasedFlowRateCriterion.serialize ⟨0, 2147483648, 0, false⟩ ≠
      ['T', ','] ++ intToChars (truncQ ((0:ℚ) * 100)) ++ [','] ++
        intToChars (2147483648 : ℤ) ++ [','] := by
  have h0 : truncQ ((0:ℚ) * 100) = (0:ℤ) := by
    rw [show ((0:ℚ) * 100) = ((0:ℤ) : ℚ) from by norm_num]
    exact truncQ_intCast 0
  have h1 : TimeBasedFlowRateCriterion.serialize ⟨0, 2147483648, 0, false⟩
      = "T,0,-2147483648,".data := by
    show ['T', ','] ++ intToChars (toInt32 (truncQ ((0:ℚ) * 100))) ++ [','] ++
        intToChars (toInt32 (2147483648:ℤ)) ++ [','] = _
    rw [h0]
    decide
  refine ⟨h1, ?_⟩
  rw [h1, h0]
  decide

/-- C7 (amended): the text format with the `static_cast<int>` narrowing —
`"T,<int32(r*100)>,<int32(d)>,"` for flow criteria (`(2.0, 60)` gives
`"T,200,60,"`), `"P,<p>,"` for probe criteria, records concatenated with
`'|'` after each in insertion order, and the empty collection
serializing to the empty string. -/
theorem claim_c7_serialize_format :
    TimeBasedFlowRateCriterion.serialize ⟨2, 60, 0, false⟩ = "T,200,60,".data ∧
    ProbeLeakDetectionCriterion.serialize ⟨42, false⟩ = "P,42,".data ∧
    LeakLogic.serialize ⟨[some (.flow ⟨2, 60, 0, false⟩), some (.probe ⟨42, false⟩),
                          some (.probe ⟨69, false⟩)]⟩
      = some "T,200,60,|P,42,|P,69,|".data ∧
    LeakLogic.serialize ⟨[]⟩ = some "".data ∧
    (∀ c : TimeBasedFlowRateCriterion,
      c.serialize = ['T', ','] ++ intToChars (toInt32 (truncQ (c.rateThreshold * 100)))
        ++ [','] ++ intToChars (toInt32 c.minDuration) ++ [',']) ∧
    (∀ p : ProbeLeakDetectionCriterion,
      p.serialize = ['P', ','] ++ natToChars p.probeId ++ [',']) ∧
    (∀ cs : List Criterion, LeakLogic.serialize ⟨cs.map some⟩ = some (serializeAll cs)) := by
  have h2 : truncQ ((2:ℚ) * 100) = (200:ℤ) := by
    rw [show ((2:ℚ) * 100) = ((200:ℤ) : ℚ) from by norm_num]
    exact truncQ_intCast 200
  have hflow : TimeBasedFlowRateCriterion.serialize ⟨2, 60, 0, false⟩ = "T,200,60,".data := by
    show ['T', ','] ++ intToChars (toInt32 (truncQ ((2:ℚ) * 100))) ++ [','] ++
        intToChars (toInt32 (60:ℤ)) ++ [','] = _
    rw [h2]
    decide
  refine ⟨hflow, by decide, ?_, by decide, fun c => rfl, fun p => rfl, ?_⟩
  · have hstep : LeakLogic.serialize ⟨[some (.flow ⟨2, 60, 0, false⟩),
        some (.probe ⟨42, false⟩), some (.probe ⟨69, false⟩)]⟩
        = some (TimeBasedFlowRateCriterion.serialize ⟨2, 60, 0, false⟩ ++ '|' ::
            (ProbeLeakDetectionCriterion.serialize ⟨42, false⟩ ++ '|' ::
              (ProbeLeakDetectionCriterion.serialize ⟨69, false⟩ ++ '|' :: []))) := rfl
    rw [hstep, hflow]
    decide
  · intro cs
    unfold LeakLogic.serialize
    exact serializeList_map_some cs

end lg
